import Mathlib

/-!
Verification of the dynamic-dimension PPP Kalman solver (`SolverPPPGNSS`).

The repository ships the class declaration `src/lib/dev/SolverPPPGNSS.hpp`
with a few inline member bodies (`Reset`, `setWeightFactor`,
`getWeightFactor`, `setIndex`, `setBufferSize`); the out-of-line member
bodies (`Compute`, `Process`, `getConverged`, `Init`) are not part of the
sources.  Members whose bodies are visible in the header are embedded from
that code; members whose bodies are missing are modelled from the
specification and say so in their doc comments.

Rationals stand in for C++ `double`; `Rat.sqrt` stands in for `std::sqrt`.
-/

namespace gpstk

/-- Modelled from the spec: the error taxonomy of the solver core (spec
section 7).  The repository's `InvalidSolver`, `ProcessingException` and
`InvalidRequest` exceptions are collapsed into this closed datatype. -/
inductive PppError where
  | DimensionMismatch
  | SingularInnovation
  | InvalidRequest
  deriving DecidableEq

/-- Computable matrix inverse over the rationals: inverse of the determinant
times the adjugate.  It agrees everywhere with the Mathlib inverse, see
`matInv_eq_inv`. -/
def matInv {n : ℕ} (A : Matrix (Fin n) (Fin n) ℚ) : Matrix (Fin n) (Fin n) ℚ :=
  (A.det)⁻¹ • A.adjugate

/-- State of the underlying Kalman filter (`SimpleKalmanFilter kFilter`):
solution vector and error covariance. -/
structure KalmanState (n : ℕ) where
  x : Fin n → ℚ
  P : Matrix (Fin n) (Fin n) ℚ
  deriving DecidableEq

/-- Modelled from the spec: the measurement covariance R built from a diagonal
weight vector; row i gets base variance `1 / w i`, scaled by the weight factor
when row i is a phase measurement (spec section 4.3). -/
def buildRVec {m : ℕ} (wf : ℚ) (isPhase : Fin m → Bool) (w : Fin m → ℚ) :
    Matrix (Fin m) (Fin m) ℚ :=
  Matrix.diagonal (fun i => (if isPhase i then wf else 1) * (w i)⁻¹)

/-- Modelled from the spec: the measurement covariance R built from a full
weight matrix; the inverse of the weight matrix, with phase rows scaled by the
weight factor (spec section 4.3). -/
def buildRMat {m : ℕ} (wf : ℚ) (isPhase : Fin m → Bool)
    (W : Matrix (Fin m) (Fin m) ℚ) : Matrix (Fin m) (Fin m) ℚ :=
  Matrix.diagonal (fun i => if isPhase i then wf else 1) * matInv W

/-- Modelled from the spec: Kalman predict step `x = Φx`, `P = ΦPΦᵀ + Q`
(spec section 4.3). -/
def predictStep {n : ℕ} (Φ Q : Matrix (Fin n) (Fin n) ℚ) (s : KalmanState n) :
    KalmanState n :=
  ⟨Φ.mulVec s.x, Φ * s.P * Φ.transpose + Q⟩

/-- Modelled from the spec: Kalman measurement update.  Innovation covariance
`S = H P Hᵀ + R`; if S is singular the update fails with status -1 and the
incoming (post-predict) state is returned unchanged; otherwise the gain is
`K = P Hᵀ S⁻¹` and the posterior is `x + K(z - Hx)`, `(I - KH) P`
(spec sections 4.3 and 7). -/
def measUpdate {n m : ℕ} (s : KalmanState n) (z : Fin m → ℚ)
    (H : Matrix (Fin m) (Fin n) ℚ) (R : Matrix (Fin m) (Fin m) ℚ) :
    Int × KalmanState n :=
  let S := H * s.P * H.transpose + R
  if S.det = 0 then (-1, s)
  else
    let K := s.P * H.transpose * matInv S
    (0, ⟨s.x + K.mulVec (z - H.mulVec s.x), (1 - K * H) * s.P⟩)

/-- Modelled from the spec: the `Compute` overload taking a full weight matrix
(declared at SolverPPPGNSS.hpp lines 236-239; its body is not in the sources).
Predict with the configured Φ and Q, then update; returns 0 on success and -1
on numerical failure, the state then staying at its post-predict value.  A
singular weight matrix cannot be inverted into a measurement covariance —
spec section 4.3 builds R as 1/weight and spec section 8 requires a singular
weight matrix to yield a failure with the update discarded — so it fails the
epoch before the update. -/
def Compute {n m : ℕ} (Φ Q : Matrix (Fin n) (Fin n) ℚ) (wf : ℚ)
    (isPhase : Fin m → Bool) (s : KalmanState n) (z : Fin m → ℚ)
    (H : Matrix (Fin m) (Fin n) ℚ) (W : Matrix (Fin m) (Fin m) ℚ) :
    Int × KalmanState n :=
  if W.det = 0 then (-1, predictStep Φ Q s)
  else measUpdate (predictStep Φ Q s) z H (buildRMat wf isPhase W)

/-- Modelled from the spec: the `Compute` overload taking a weight vector
(declared at SolverPPPGNSS.hpp lines 257-260; its body is not in the sources).
Identical to the matrix overload except that the measurement covariance is
built directly from the diagonal weights, the cheaper path of spec
section 4.3; a zero weight is a singular (diagonal) weight matrix, so, as in
the matrix overload, it fails the epoch before the update. -/
def ComputeVec {n m : ℕ} (Φ Q : Matrix (Fin n) (Fin n) ℚ) (wf : ℚ)
    (isPhase : Fin m → Bool) (s : KalmanState n) (z : Fin m → ℚ)
    (H : Matrix (Fin m) (Fin n) ℚ) (w : Fin m → ℚ) :
    Int × KalmanState n :=
  if ∃ i, w i = 0 then (-1, predictStep Φ Q s)
  else measUpdate (predictStep Φ Q s) z H (buildRVec wf isPhase w)

/-- Entry i of a rational list, 0 when out of range. -/
def nth (l : List ℚ) (i : ℕ) : ℚ := (l[i]?).getD 0

/-- Entry (i, j) of a list-of-rows matrix, 0 when out of range. -/
def nth2 (P : List (List ℚ)) (i j : ℕ) : ℚ := nth ((P[i]?).getD []) j

/-- Modelled from the spec: the configured variances of the ambiguity
lifecycle: `initVar` is the large prior variance given to a newly appended
ambiguity, `resetVar` the white-noise variance installed by a cycle-slip
reset (spec sections 4.1 and 4.2; the repository keeps them inside the
`PhaseAmbiguityModel biasModel` member, whose class is not under src). -/
structure AmbConfig where
  initVar : ℚ
  resetVar : ℚ
  deriving DecidableEq

/-- Modelled from the spec: the dynamic filter state: the size of the fixed
head block (tropo, clock, coordinates and ISBs), the ordered list of currently
tracked satellite ids keying the ambiguity tail (the `satSet`, `ambiguityMap`
and `ambCovMap` members of SolverPPPGNSS.hpp), and the state vector and its
covariance as plain lists (spec section 3). -/
structure PppState where
  head : ℕ
  sats : List ℕ
  x : List ℚ
  P : List (List ℚ)
  deriving DecidableEq

/-- Modelled from the spec: the white-noise reset applied to the ambiguity at
row i when its satellite raises a cycle-slip flag (the behavior the spec gives
to the `PhaseAmbiguityModel biasModel` member, SolverPPPGNSS.hpp lines
709-710): the value is discarded, the variance becomes the configured reset
variance, the covariances with every other state are zeroed, everything else
is untouched; n is the state dimension (spec sections 4.1 and 4.2). -/
def resetAmb (n : ℕ) (rv : ℚ) (i : ℕ) (x : List ℚ) (P : List (List ℚ)) :
    List ℚ × List (List ℚ) :=
  (x.set i 0,
   (P.map (fun r => r.set i 0)).set i ((List.replicate n 0).set i rv))

/-- Modelled from the spec: apply the cycle-slip reset to every tracked
satellite whose slip flag is raised; tail position j lives at row h + j
(spec section 4.1). -/
def slipStep (h : ℕ) (rv : ℚ) (sats : List ℕ) (slip : ℕ → Bool)
    (xP : List ℚ × List (List ℚ)) : List ℚ × List (List ℚ) :=
  (List.range sats.length).foldl
    (fun acc j =>
      if slip (sats.getD j 0) then resetAmb (h + sats.length) rv (h + j) acc.1 acc.2
      else acc) xP

/-- Tail positions of the satellites that stay tracked this epoch. -/
def keepIdx (st : PppState) (cur : List ℕ) : List ℕ :=
  (List.range st.sats.length).filter
    (fun j => decide (st.sats.getD j 0 ∈ cur))

/-- Row indices surviving the drop: the whole head block followed by the
kept tail rows. -/
def dropIdx (st : PppState) (cur : List ℕ) : List ℕ :=
  List.range st.head ++ (keepIdx st cur).map (fun j => st.head + j)

/-- Modelled from the spec: the drop part of the per-epoch reconciliation:
satellites no longer observed this epoch lose their state entry, with the
corresponding covariance row and column removed; the head block and the
surviving tail entries keep their values (spec section 4.1). -/
def dropStep (st : PppState) (cur : List ℕ) : PppState :=
  ⟨st.head, (keepIdx st cur).map (fun j => st.sats.getD j 0),
   (dropIdx st cur).map (fun i => nth st.x i),
   (dropIdx st cur).map (fun i => (dropIdx st cur).map (fun j => nth2 st.P i j))⟩

/-- The epoch satellites that are not yet tracked. -/
def newSats (st : PppState) (cur : List ℕ) : List ℕ :=
  cur.filter (fun s => decide (s ∉ st.sats))

/-- Modelled from the spec: the append part of the per-epoch reconciliation:
every satellite of the epoch set not yet tracked gets a brand-new ambiguity
entry with value 0 and the configured large prior variance, its covariance
with all pre-existing states being zero (spec section 4.1). -/
def addStep (iv : ℚ) (st : PppState) (cur : List ℕ) : PppState :=
  ⟨st.head, st.sats ++ newSats st cur,
   st.x ++ List.replicate (newSats st cur).length 0,
   (st.P.map (fun r => r ++ List.replicate (newSats st cur).length 0)) ++
     (List.range (newSats st cur).length).map (fun j =>
       List.replicate (st.head + st.sats.length) 0 ++
         (List.replicate (newSats st cur).length 0).set j iv)⟩

/-- Modelled from the spec: per-epoch reconciliation of the state vector and
covariance with the epoch satellite set (the DynamicStateManager of spec
section 4.1; in the repository this bookkeeping lives in the Process body,
which is not under src): drop the absent satellites, white-noise-reset the
slipped ones, then append the newly observed ones. -/
def reconcile (cfg : AmbConfig) (st : PppState) (cur : List ℕ)
    (slip : ℕ → Bool) : PppState :=
  let st1 := dropStep st cur
  let xP2 := slipStep st1.head cfg.resetVar st1.sats slip (st1.x, st1.P)
  addStep cfg.initVar ⟨st1.head, st1.sats, xP2.1, xP2.2⟩ cur

/-- Row index of the ambiguity of satellite S in the state vector: the head
block comes first, then the tail in `sats` order. -/
def ambRow (st : PppState) (S : ℕ) : ℕ := st.head + st.sats.indexOf S

/-- Current value of the ambiguity of satellite S. -/
def ambVal (st : PppState) (S : ℕ) : ℚ := nth st.x (ambRow st S)

/-- Current variance of the ambiguity of satellite S (diagonal entry of P). -/
def ambVar (st : PppState) (S : ℕ) : ℚ := nth2 st.P (ambRow st S) (ambRow st S)

/-- Dimension consistency of the dynamic state: the state vector has one
entry per head unknown and per tracked satellite, and the covariance is
square of the same dimension. -/
def wellFormed (st : PppState) : Prop :=
  st.x.length = st.head + st.sats.length ∧
  st.P.length = st.x.length ∧
  ∀ r ∈ st.P, r.length = st.x.length

/-- Modelled from the spec: the dimension validation of the solver facade:
every row of H has as many columns as the state vector, and H, the prefit
vector and the weights agree in the number of rows (spec section 4.3). -/
def checkDims (nx : ℕ) (z : List ℚ) (H : List (List ℚ)) (w : List ℚ) : Bool :=
  H.all (fun r => r.length == nx) && (H.length == z.length) &&
    (z.length == w.length)

/-- Modelled from the spec: the list-level Compute entry point of the solver
facade (SolverPPPGNSS::Compute, body not in src): validate dimensions — a
violation is fatal for the epoch and leaves the state untouched — then run
the Kalman core on the bridged matrices and write the posterior back; a
singular innovation covariance leaves the state at its post-predict value
(spec sections 4.5 and 7). -/
def ComputeList (Φ Q : List (List ℚ)) (wf : ℚ) (isPhase : ℕ → Bool)
    (st : PppState) (z : List ℚ) (H : List (List ℚ)) (w : List ℚ) :
    Option PppError × PppState :=
  let n := st.x.length
  let m := z.length
  if checkDims n z H w then
    let s0 : KalmanState n := ⟨fun i => nth st.x i, Matrix.of fun i j => nth2 st.P i j⟩
    let Φm : Matrix (Fin n) (Fin n) ℚ := Matrix.of fun i j => nth2 Φ i j
    let Qm : Matrix (Fin n) (Fin n) ℚ := Matrix.of fun i j => nth2 Q i j
    let Hm : Matrix (Fin m) (Fin n) ℚ := Matrix.of fun i j => nth2 H i j
    let res := ComputeVec Φm Qm wf (fun i => isPhase i.1) s0
      (fun i => nth z i.1) Hm (fun i => nth w i.1)
    let s1 := res.2
    ((if res.1 = 0 then none else some PppError.SingularInnovation),
     ⟨st.head, st.sats,
      (List.range n).map (fun i => if h : i < n then s1.x ⟨i, h⟩ else 0),
      (List.range n).map (fun i => (List.range n).map (fun j =>
        if h : i < n then if h2 : j < n then s1.P ⟨i, h⟩ ⟨j, h2⟩ else 0 else 0))⟩)
  else (some PppError.DimensionMismatch, st)

/-- Modelled from the spec: push one pass/fail indicator into the sliding
convergence window `convergBuffer`, keeping only the last `bufferSize`
entries (SolverPPPGNSS.hpp lines 578-589; the pushing code is not under
src). -/
def pushIndicator (N : ℕ) (buf : List Bool) (b : Bool) : List Bool :=
  let buf1 := buf ++ [b]
  buf1.drop (buf1.length - N)

/-- Modelled from the spec: the converged decision: the window holds exactly
`bufferSize` indicators and every one of them is a pass (spec section 4.4). -/
def isConverged (N : ℕ) (buf : List Bool) : Bool :=
  decide (buf.length = N) && buf.all (fun b => b)

/-- Last N entries of a list. -/
def lastN {α : Type*} (N : ℕ) (l : List α) : List α := l.drop (l.length - N)

/-- The converged flag after feeding a whole pass/fail indicator sequence,
epoch by epoch, through the sliding window. -/
def convergedAfter (N : ℕ) (seq : List Bool) : Bool :=
  isConverged N (seq.foldl (pushIndicator N) [])

/-- The solver object: the kFilter state together with the convergence
bookkeeping, the weight factor and the identification index members of
SolverPPPGNSS.hpp (lines 563-724). -/
structure Solver where
  st : PppState
  weightFactor : ℚ
  bufferSize : ℕ
  convergBuffer : List Bool
  converged : Bool
  firstTime : Bool
  index : ℤ
  deriving DecidableEq

/-- Reset, embedded from its inline body at SolverPPPGNSS.hpp lines 290-292:
`kFilter.Reset(newState, newErrorCov)` installs the new state vector and
error covariance in the underlying Kalman filter and returns the object;
no other member is touched. -/
def Reset (s : Solver) (newState : List ℚ) (newErrorCov : List (List ℚ)) :
    Solver :=
  { s with st := { s.st with x := newState, P := newErrorCov } }

/-- setWeightFactor, embedded from its inline body at SolverPPPGNSS.hpp
lines 324-325: the member stores the square of the given factor. -/
def setWeightFactor (s : Solver) (factor : ℚ) : Solver :=
  { s with weightFactor := factor * factor }

/-- getWeightFactor, embedded from its inline body at SolverPPPGNSS.hpp
lines 312-313: returns the square root of the stored member. -/
def getWeightFactor (s : Solver) : ℚ := Rat.sqrt s.weightFactor

/-- getIndex, per SolverPPPGNSS.hpp line 538: the object identification
index. -/
def getIndex (s : Solver) : ℤ := s.index

/-- setIndex, embedded from its inline body at SolverPPPGNSS.hpp lines
723-724: `index = classIndex++`; the module-level counter is passed in and
its incremented value returned explicitly. -/
def setIndex (classIndex : ℤ) (s : Solver) : Solver × ℤ :=
  ({ s with index := classIndex }, classIndex + 1)

/-- Modelled from the spec: getConverged (declared at SolverPPPGNSS.hpp
lines 526-529 with exception type InvalidRequest; body not in src): before
any processed epoch the query is an invalid request, afterwards it returns
the converged flag (spec sections 4.4 and 7). -/
def getConverged (s : Solver) : Except PppError Bool :=
  if s.firstTime then Except.error PppError.InvalidRequest
  else Except.ok s.converged

/-- Modelled from the spec: one Process epoch (SolverPPPGNSS::Process, body
not in src): reconcile the state with the epoch satellite set, run the
Compute entry point, push the caller-supplied pass indicator into the
convergence window and refresh the converged flag; the first-time flag is
cleared and the identification index is untouched (spec sections 4.4 and
4.5). -/
def ProcessSolver (Φ Q : List (List ℚ)) (cfg : AmbConfig) (isPhase : ℕ → Bool)
    (s : Solver) (cur : List ℕ) (slip : ℕ → Bool) (z : List ℚ)
    (H : List (List ℚ)) (w : List ℚ) (pass : Bool) :
    Option PppError × Solver :=
  let st1 := reconcile cfg s.st cur slip
  let res := ComputeList Φ Q s.weightFactor isPhase st1 z H w
  let buf := pushIndicator s.bufferSize s.convergBuffer pass
  (res.1,
   { s with st := res.2, firstTime := false, convergBuffer := buf,
            converged := isConverged s.bufferSize buf })

/-- A small concrete solver value used to evaluate the embedded members on
explicit inputs: one head unknown, one tracked satellite, a nonempty
convergence window and a raised converged flag. -/
def demoSolver : Solver :=
  ⟨⟨1, [7], [0, 2], [[1, 0], [0, 4]]⟩, 10000, 5, [true, true], true, false, 0⟩

/-- A concrete solver value on which no epoch has been processed yet. -/
def freshSolver : Solver :=
  ⟨⟨1, [], [0], [[1]]⟩, 10000, 5, [], false, true, 0⟩

theorem matInv_eq_inv {n : ℕ} (A : Matrix (Fin n) (Fin n) ℚ) : matInv A = A⁻¹ := by
  rw [Matrix.inv_def, Ring.inverse_eq_inv, matInv]

/-- C1: whenever the innovation covariance S = H P Hᵀ + R of an epoch is
singular, Compute signals a computational failure with return value -1 and
the filter state is exactly the post-predict state: no partial update is
applied. -/
theorem Compute_singular_innovation_fails_and_keeps_predicted_state
    {n m : ℕ} (Φ Q : Matrix (Fin n) (Fin n) ℚ) (wf : ℚ)
    (isPhase : Fin m → Bool) (s : KalmanState n) (z : Fin m → ℚ)
    (H : Matrix (Fin m) (Fin n) ℚ) (W : Matrix (Fin m) (Fin m) ℚ)
    (h : (H * (predictStep Φ Q s).P * H.transpose +
        buildRMat wf isPhase W).det = 0) :
    Compute Φ Q wf isPhase s z H W = (-1, predictStep Φ Q s) := by
  unfold Compute
  by_cases hW : W.det = 0
  · rw [if_pos hW]
  · rw [if_neg hW]
    simp only [measUpdate]
    rw [if_pos h]

/-- Witness for C1: a concrete one-dimensional epoch with zero design matrix
and zero weight matrix has a singular innovation covariance, and Compute on
it returns -1 with the post-predict state. -/
theorem Compute_singular_innovation_witness :
    ((0 : Matrix (Fin 1) (Fin 1) ℚ) *
        (predictStep 1 0 ⟨![0], 1⟩).P * (0 : Matrix (Fin 1) (Fin 1) ℚ).transpose +
        buildRMat 1 (fun _ => false) 0).det = 0 ∧
      Compute 1 0 1 (fun _ => false) ⟨![0], 1⟩ ![0] 0 0 =
        (-1, predictStep 1 0 ⟨![0], 1⟩) := by
  have h : ((0 : Matrix (Fin 1) (Fin 1) ℚ) *
      (predictStep 1 0 ⟨![0], 1⟩).P * (0 : Matrix (Fin 1) (Fin 1) ℚ).transpose +
      buildRMat 1 (fun _ => false) 0).det = 0 := by
    simp [predictStep, buildRMat, matInv, Matrix.det_fin_one]
  exact ⟨h, Compute_singular_innovation_fails_and_keeps_predicted_state
    1 0 1 (fun _ => false) ⟨![0], 1⟩ ![0] 0 0 h⟩

theorem matInv_diagonal {m : ℕ} (w : Fin m → ℚ) (hw : ∀ i, w i ≠ 0) :
    matInv (Matrix.diagonal w) = Matrix.diagonal (fun i => (w i)⁻¹) := by
  rw [matInv_eq_inv]
  apply Matrix.inv_eq_right_inv
  rw [Matrix.diagonal_mul_diagonal]
  have h : (fun i => w i * (w i)⁻¹) = fun _ => (1 : ℚ) :=
    funext fun i => mul_inv_cancel₀ (hw i)
  rw [h, Matrix.diagonal_one]

/-- C2: for every prefit-residual vector z, design matrix H and weight
vector w, the Compute overload taking w produces exactly the same status and
posterior state and covariance as the overload taking the full weight matrix
diag(w): a zero entry makes diag(w) singular, so both overloads fail the
epoch identically with the post-predict state, and with all entries nonzero
both build the same measurement covariance and update identically. -/
theorem ComputeVec_eq_Compute_diagonal_weights {n m : ℕ}
    (Φ Q : Matrix (Fin n) (Fin n) ℚ) (wf : ℚ) (isPhase : Fin m → Bool)
    (s : KalmanState n) (z : Fin m → ℚ) (H : Matrix (Fin m) (Fin n) ℚ)
    (w : Fin m → ℚ) :
    ComputeVec Φ Q wf isPhase s z H w =
      Compute Φ Q wf isPhase s z H (Matrix.diagonal w) := by
  unfold ComputeVec Compute
  by_cases hz : ∃ i, w i = 0
  · have hdet : (Matrix.diagonal w).det = 0 := by
      rw [Matrix.det_diagonal]
      obtain ⟨i, hi⟩ := hz
      exact Finset.prod_eq_zero (Finset.mem_univ i) hi
    rw [if_pos hz, if_pos hdet]
  · have hw : ∀ i, w i ≠ 0 := by
      push_neg at hz
      exact hz
    have hdet : ¬ (Matrix.diagonal w).det = 0 := by
      rw [Matrix.det_diagonal]
      exact Finset.prod_ne_zero_iff.mpr (fun i _ => hw i)
    rw [if_neg hz, if_neg hdet]
    congr 1
    rw [buildRMat, matInv_diagonal w hw, Matrix.diagonal_mul_diagonal, buildRVec]

theorem pushIndicator_lastN (N : ℕ) (l : List Bool) (b : Bool) :
    pushIndicator N (lastN N l) b = lastN N (l ++ [b]) := by
  simp only [pushIndicator, lastN]
  rw [show l.drop (l.length - N) ++ [b] = (l ++ [b]).drop (l.length - N) from
    (List.drop_append_of_le_length (by omega)).symm]
  rw [List.drop_drop]
  congr 1
  simp only [List.length_drop, List.length_append, List.length_cons,
    List.length_nil]
  omega

theorem foldl_pushIndicator (N : ℕ) (l acc : List Bool) :
    (l.foldl (pushIndicator N) (lastN N acc)) = lastN N (acc ++ l) := by
  induction l generalizing acc with
  | nil => simp
  | cons b t ih =>
    rw [List.foldl_cons, pushIndicator_lastN, ih (acc ++ [b])]
    simp

theorem convergedAfter_eq (N : ℕ) (seq : List Bool) :
    convergedAfter N seq = isConverged N (lastN N seq) := by
  have h : seq.foldl (pushIndicator N) [] = lastN N seq := by
    have h0 : lastN N ([] : List Bool) = [] := by simp [lastN]
    have h1 := foldl_pushIndicator N seq []
    rw [h0] at h1
    simpa using h1
  rw [convergedAfter, h]

/-- C4: the converged flag computed through the sliding window is true
exactly when the indicator history is at least N long and the last N
indicators are all passes; in particular, for window size 5 and the
indicator sequence [F,T,T,T,T,T,F] it is false through the 4th pass, true at
the 5th consecutive pass, and false again at the trailing fail. -/
theorem convergBuffer_window_semantics :
    (∀ (N : ℕ) (seq : List Bool),
      convergedAfter N seq = true ↔
        N ≤ seq.length ∧ ∀ b ∈ lastN N seq, b = true) ∧
    convergedAfter 5 [false] = false ∧
    convergedAfter 5 [false, true] = false ∧
    convergedAfter 5 [false, true, true] = false ∧
    convergedAfter 5 [false, true, true, true] = false ∧
    convergedAfter 5 [false, true, true, true, true] = false ∧
    convergedAfter 5 [false, true, true, true, true, true] = true ∧
    convergedAfter 5 [false, true, true, true, true, true, false] = false := by
  refine ⟨?_, by decide, by decide, by decide, by decide, by decide,
    by decide, by decide⟩
  intro N seq
  rw [convergedAfter_eq, isConverged]
  simp only [Bool.and_eq_true, decide_eq_true_eq, List.all_eq_true]
  have hlen : (lastN N seq).length = seq.length - (seq.length - N) := by
    simp [lastN]
  constructor
  · rintro ⟨h1, h2⟩
    exact ⟨by omega, h2⟩
  · rintro ⟨h1, h2⟩
    exact ⟨by omega, h2⟩

theorem nth_replicate_zero (n j : ℕ) : nth (List.replicate n (0:ℚ)) j = 0 := by
  unfold nth
  rw [List.getElem?_replicate]
  split <;> rfl

theorem resetAmb_slip_reset_frame (n : ℕ) (rv : ℚ) (i : ℕ) (x : List ℚ)
    (P : List (List ℚ)) (hP : P.length = n)
    (hrows : ∀ r ∈ P, r.length = n) (hi : i < n) :
    nth2 (resetAmb n rv i x P).2 i i = rv ∧
    (∀ k, k < n → k ≠ i → nth2 (resetAmb n rv i x P).2 i k = 0 ∧
      nth2 (resetAmb n rv i x P).2 k i = 0) ∧
    (∀ a b, a ≠ i → b ≠ i → nth2 (resetAmb n rv i x P).2 a b = nth2 P a b) ∧
    (∀ a, a ≠ i → nth (resetAmb n rv i x P).1 a = nth x a) := by
  have hmlen : (P.map (fun r => r.set i 0)).length = n := by
    rw [List.length_map, hP]
  have hrowi : ((P.map (fun r => r.set i 0)).set i
      ((List.replicate n 0).set i rv))[i]? =
      some ((List.replicate n 0).set i rv) := by
    exact List.getElem?_set_self (by omega)
  refine ⟨?_, ?_, ?_, ?_⟩
  · unfold resetAmb nth2
    rw [hrowi]
    unfold nth
    rw [Option.getD_some, List.getElem?_set_self (by simp; omega)]
    rfl
  · intro k hk hki
    constructor
    · unfold resetAmb nth2
      rw [hrowi]
      unfold nth
      rw [Option.getD_some, List.getElem?_set_ne (by omega)]
      rw [List.getElem?_replicate]
      rw [if_pos hk]
      rfl
    · unfold resetAmb nth2
      rw [List.getElem?_set_ne (by omega), List.getElem?_map]
      have hk2 : k < P.length := by omega
      rw [List.getElem?_eq_getElem hk2]
      simp only [Option.map_some', Option.getD_some]
      unfold nth
      rw [List.getElem?_set_self (by
        rw [hrows (P[k]) (List.getElem_mem hk2)]; omega)]
      rfl
  · intro a b ha hb
    unfold resetAmb nth2
    rw [List.getElem?_set_ne (by omega), List.getElem?_map]
    cases hpa : P[a]? with
    | none => rfl
    | some r =>
      simp only [Option.map_some', Option.getD_some]
      unfold nth
      rw [List.getElem?_set_ne (show i ≠ b by omega)]
  · intro a ha
    unfold resetAmb nth
    rw [List.getElem?_set_ne (by omega)]

theorem foldl_range_id {β : Type*} (f : β → ℕ → β) (n : ℕ)
    (hid : ∀ b t, t < n → f b t = b) : ∀ b, (List.range n).foldl f b = b := by
  induction n with
  | zero => intro b; rfl
  | succ n ih =>
    intro b
    rw [List.range_succ, List.foldl_append]
    rw [ih (fun b t ht => hid b t (by omega)) b]
    exact hid b n (by omega)

theorem foldl_range_single {β : Type*} (f : β → ℕ → β) (n j : ℕ) (hj : j < n)
    (hid : ∀ b t, t < n → t ≠ j → f b t = b) (b : β) :
    (List.range n).foldl f b = f b j := by
  induction n with
  | zero => omega
  | succ n ih =>
    rw [List.range_succ, List.foldl_append]
    by_cases hjn : j = n
    · rw [foldl_range_id f n (fun b t ht => hid b t (by omega) (by omega)) b]
      show f b n = f b j
      rw [hjn]
    · rw [ih (by omega) (fun b t ht hne => hid b t (by omega) hne)]
      exact hid (f b j) n (by omega) (by omega)

theorem slipStep_eq_resetAmb (h : ℕ) (rv : ℚ) (sats : List ℕ)
    (slip : ℕ → Bool) (xP : List ℚ × List (List ℚ)) (j : ℕ)
    (hj : j < sats.length)
    (hone : ∀ t, t < sats.length → (slip (sats.getD t 0) = true ↔ t = j)) :
    slipStep h rv sats slip xP =
      resetAmb (h + sats.length) rv (h + j) xP.1 xP.2 := by
  unfold slipStep
  rw [foldl_range_single _ sats.length j hj ?hid xP]
  · have hsj : slip (sats.getD j 0) = true := (hone j hj).mpr rfl
    rw [if_pos hsj]
  · intro b t ht hne
    have hst : ¬ (slip (sats.getD t 0) = true) := fun hc => hne ((hone t ht).mp hc)
    simp only [Bool.not_eq_true] at hst
    rw [hst]
    simp

/-- C6: when the cycle-slip flag is raised for the tracked satellite S (and
only S) at an epoch, the reconciliation slip step installs the configured
reset variance on S's ambiguity diagonal regardless of its previous value,
zeroes S's ambiguity covariances with every other state, and leaves every
state entry not involving S's ambiguity — values and covariances —
numerically unchanged by the reset itself. -/
theorem slip_reset_white_noise_and_frame (hd : ℕ) (rv : ℚ) (sats : List ℕ)
    (slip : ℕ → Bool) (x : List ℚ) (P : List (List ℚ)) (S : ℕ)
    (hnodup : sats.Nodup) (hS : S ∈ sats) (hslipS : slip S = true)
    (honly : ∀ t ∈ sats, slip t = true → t = S)
    (hP : P.length = hd + sats.length)
    (hrows : ∀ r ∈ P, r.length = hd + sats.length) :
    nth2 (slipStep hd rv sats slip (x, P)).2 (hd + sats.indexOf S)
        (hd + sats.indexOf S) = rv ∧
    (∀ k, k < hd + sats.length → k ≠ hd + sats.indexOf S →
      nth2 (slipStep hd rv sats slip (x, P)).2 (hd + sats.indexOf S) k = 0 ∧
      nth2 (slipStep hd rv sats slip (x, P)).2 k (hd + sats.indexOf S) = 0) ∧
    (∀ a b, a ≠ hd + sats.indexOf S → b ≠ hd + sats.indexOf S →
      nth2 (slipStep hd rv sats slip (x, P)).2 a b = nth2 P a b) ∧
    (∀ a, a ≠ hd + sats.indexOf S →
      nth (slipStep hd rv sats slip (x, P)).1 a = nth x a) := by
  have hidx : sats.indexOf S < sats.length := List.indexOf_lt_length.mpr hS
  have hone : ∀ t, t < sats.length →
      (slip (sats.getD t 0) = true ↔ t = sats.indexOf S) := by
    intro t ht
    have hgetd : sats.getD t 0 = sats[t] := List.getD_eq_getElem sats 0 ht
    constructor
    · intro hc
      rw [hgetd] at hc
      have hts : sats[t] = S := honly sats[t] (List.getElem_mem ht) hc
      have h2 := List.indexOf_getElem hnodup t ht
      rw [hts] at h2
      exact h2.symm
    · intro hc
      subst hc
      rw [hgetd, List.getElem_indexOf hidx]
      exact hslipS
  rw [slipStep_eq_resetAmb hd rv sats slip (x, P) (sats.indexOf S) hidx hone]
  exact resetAmb_slip_reset_frame (hd + sats.length) rv (hd + sats.indexOf S)
    x P hP hrows (by omega)

/-- Witness for C6: a concrete three-state filter (one head unknown, two
tracked satellites) where satellite 9 slips: its variance is forced to the
reset value 5, its covariances with the first state vanish, and the first
state keeps its value and variance. -/
theorem slip_reset_white_noise_witness :
    nth2 (slipStep 1 5 [4, 9] (fun t => t == 9)
        ([1, 2, 3], [[1, 0, 0], [0, 2, 0], [0, 0, 3]])).2 2 2 = 5 ∧
    nth2 (slipStep 1 5 [4, 9] (fun t => t == 9)
        ([1, 2, 3], [[1, 0, 0], [0, 2, 0], [0, 0, 3]])).2 2 0 = 0 ∧
    nth2 (slipStep 1 5 [4, 9] (fun t => t == 9)
        ([1, 2, 3], [[1, 0, 0], [0, 2, 0], [0, 0, 3]])).2 0 2 = 0 ∧
    nth2 (slipStep 1 5 [4, 9] (fun t => t == 9)
        ([1, 2, 3], [[1, 0, 0], [0, 2, 0], [0, 0, 3]])).2 0 0 =
      nth2 [[1, 0, 0], [0, 2, 0], [0, 0, 3]] 0 0 ∧
    nth (slipStep 1 5 [4, 9] (fun t => t == 9)
        ([1, 2, 3], [[1, 0, 0], [0, 2, 0], [0, 0, 3]])).1 0 =
      nth [1, 2, 3] 0 := by
  have hmain := slip_reset_white_noise_and_frame 1 5 [4, 9] (fun t => t == 9)
    [1, 2, 3] [[1, 0, 0], [0, 2, 0], [0, 0, 3]] 9 (by decide) (by decide) rfl
    (by decide) (by decide) (by decide)
  have hidx : 1 + List.indexOf 9 [4, 9] = 2 := by rfl
  rw [hidx] at hmain
  have hk := hmain.2.1 0 (by decide) (by decide)
  exact ⟨hmain.1, hk.1, hk.2, hmain.2.2.1 0 0 (by decide) (by decide),
    hmain.2.2.2 0 (by decide)⟩

theorem foldl_inv {β α : Type*} (f : β → α → β) (Inv : β → Prop)
    (hf : ∀ b a, Inv b → Inv (f b a)) :
    ∀ (l : List α) (b : β), Inv b → Inv (l.foldl f b) := by
  intro l
  induction l with
  | nil => intro b hb; exact hb
  | cons a t ih => intro b hb; exact ih (f b a) (hf b a hb)

theorem slipStep_fst_length (h : ℕ) (rv : ℚ) (sats : List ℕ)
    (slip : ℕ → Bool) (xP : List ℚ × List (List ℚ)) :
    (slipStep h rv sats slip xP).1.length = xP.1.length := by
  unfold slipStep
  refine foldl_inv _ (fun b => b.1.length = xP.1.length) ?_ _ xP rfl
  intro b j hb
  split
  · simp only [resetAmb, List.length_set]
    exact hb
  · exact hb

theorem slipStep_snd_length (h : ℕ) (rv : ℚ) (sats : List ℕ)
    (slip : ℕ → Bool) (xP : List ℚ × List (List ℚ)) :
    (slipStep h rv sats slip xP).2.length = xP.2.length := by
  unfold slipStep
  refine foldl_inv _ (fun b => b.2.length = xP.2.length) ?_ _ xP rfl
  intro b j hb
  split
  · simp only [resetAmb, List.length_set, List.length_map]
    exact hb
  · exact hb

theorem slipStep_rows (h : ℕ) (rv : ℚ) (sats : List ℕ) (slip : ℕ → Bool)
    (xP : List ℚ × List (List ℚ))
    (hrows : ∀ r ∈ xP.2, r.length = h + sats.length) :
    ∀ r ∈ (slipStep h rv sats slip xP).2, r.length = h + sats.length := by
  unfold slipStep
  refine foldl_inv _ (fun b => ∀ r ∈ b.2, r.length = h + sats.length) ?_ _ xP hrows
  intro b j hb
  split
  · intro r hr
    simp only [resetAmb] at hr
    rcases List.mem_or_eq_of_mem_set hr with hmem | heq
    · rcases List.mem_map.mp hmem with ⟨r0, hr0, rfl⟩
      rw [List.length_set]
      exact hb r0 hr0
    · subst heq
      rw [List.length_set, List.length_replicate]
  · exact hb

theorem dropStep_sats_mem (st : PppState) (cur : List ℕ) (a : ℕ)
    (ha : a ∈ (dropStep st cur).sats) : a ∈ st.sats ∧ a ∈ cur := by
  have ha2 : a ∈ (keepIdx st cur).map (fun j => st.sats.getD j 0) := ha
  rcases List.mem_map.mp ha2 with ⟨j, hj, rfl⟩
  rcases List.mem_filter.mp hj with ⟨hjr, hjc⟩
  have hjlen : j < st.sats.length := List.mem_range.mp hjr
  have hcur : st.sats.getD j 0 ∈ cur := of_decide_eq_true hjc
  rw [List.getD_eq_getElem st.sats 0 hjlen]
  rw [List.getD_eq_getElem st.sats 0 hjlen] at hcur
  exact ⟨List.getElem_mem hjlen, hcur⟩

theorem dropStep_x_length (st : PppState) (cur : List ℕ) :
    (dropStep st cur).x.length = st.head + (keepIdx st cur).length := by
  simp [dropStep, dropIdx]

theorem dropStep_sats_length (st : PppState) (cur : List ℕ) :
    (dropStep st cur).sats.length = (keepIdx st cur).length := by
  simp [dropStep]

theorem dropStep_P_length (st : PppState) (cur : List ℕ) :
    (dropStep st cur).P.length = st.head + (keepIdx st cur).length := by
  simp [dropStep, dropIdx]

theorem dropStep_P_rows (st : PppState) (cur : List ℕ) :
    ∀ r ∈ (dropStep st cur).P, r.length = st.head + (keepIdx st cur).length := by
  intro r hr
  have hr2 : r ∈ (dropIdx st cur).map
      (fun i => (dropIdx st cur).map (fun j => nth2 st.P i j)) := hr
  rcases List.mem_map.mp hr2 with ⟨i, _, rfl⟩
  simp [dropIdx]

theorem nth_append_right_len (l1 l2 : List ℚ) (i : ℕ) (h : l1.length ≤ i) :
    nth (l1 ++ l2) i = nth l2 (i - l1.length) := by
  unfold nth
  rw [List.getElem?_append_right h]

theorem addStep_fresh (iv : ℚ) (st : PppState) (cur : List ℕ) (S : ℕ)
    (hx : st.x.length = st.head + st.sats.length)
    (hP : st.P.length = st.head + st.sats.length)
    (hnot : S ∉ st.sats) (hcur : S ∈ cur) :
    ambVar (addStep iv st cur) S = iv ∧ ambVal (addStep iv st cur) S = 0 := by
  have hSns : S ∈ newSats st cur := by
    unfold newSats
    rw [List.mem_filter]
    exact ⟨hcur, by simpa using hnot⟩
  have hj : (newSats st cur).indexOf S < (newSats st cur).length :=
    List.indexOf_lt_length.mpr hSns
  have hrow : ambRow (addStep iv st cur) S =
      st.head + st.sats.length + (newSats st cur).indexOf S := by
    unfold ambRow
    show st.head + (st.sats ++ newSats st cur).indexOf S = _
    rw [List.indexOf_append_of_not_mem hnot]
    omega
  constructor
  · unfold ambVar
    rw [hrow]
    show nth2 ((st.P.map (fun r => r ++ List.replicate (newSats st cur).length 0)) ++
        (List.range (newSats st cur).length).map (fun j =>
          List.replicate (st.head + st.sats.length) 0 ++
            (List.replicate (newSats st cur).length 0).set j iv)) _ _ = iv
    unfold nth2
    rw [List.getElem?_append_right (by rw [List.length_map]; omega)]
    rw [List.length_map, hP,
      show st.head + st.sats.length + (newSats st cur).indexOf S -
        (st.head + st.sats.length) = (newSats st cur).indexOf S from by omega]
    rw [List.getElem?_map, List.getElem?_range hj]
    simp only [Option.map_some', Option.getD_some]
    rw [nth_append_right_len _ _ _ (by rw [List.length_replicate]; omega)]
    rw [List.length_replicate,
      show st.head + st.sats.length + (newSats st cur).indexOf S -
        (st.head + st.sats.length) = (newSats st cur).indexOf S from by omega]
    unfold nth
    rw [List.getElem?_set_self (by rw [List.length_replicate]; omega)]
    rfl
  · unfold ambVal
    rw [hrow]
    show nth (st.x ++ List.replicate (newSats st cur).length 0) _ = 0
    rw [nth_append_right_len _ _ _ (by omega)]
    rw [hx, show st.head + st.sats.length + (newSats st cur).indexOf S -
      (st.head + st.sats.length) = (newSats st cur).indexOf S from by omega]
    exact nth_replicate_zero _ _

theorem reconcile_fresh (cfg : AmbConfig) (st : PppState) (cur : List ℕ)
    (slip : ℕ → Bool) (S : ℕ) (hnot : S ∉ st.sats) (hcur : S ∈ cur) :
    ambVar (reconcile cfg st cur slip) S = cfg.initVar ∧
    ambVal (reconcile cfg st cur slip) S = 0 := by
  have hst1 : S ∉ (dropStep st cur).sats :=
    fun hc => hnot (dropStep_sats_mem st cur S hc).1
  have hfst := slipStep_fst_length (dropStep st cur).head cfg.resetVar
    (dropStep st cur).sats slip ((dropStep st cur).x, (dropStep st cur).P)
  have hsnd := slipStep_snd_length (dropStep st cur).head cfg.resetVar
    (dropStep st cur).sats slip ((dropStep st cur).x, (dropStep st cur).P)
  exact addStep_fresh cfg.initVar
    ⟨(dropStep st cur).head, (dropStep st cur).sats,
     (slipStep (dropStep st cur).head cfg.resetVar (dropStep st cur).sats slip
       ((dropStep st cur).x, (dropStep st cur).P)).1,
     (slipStep (dropStep st cur).head cfg.resetVar (dropStep st cur).sats slip
       ((dropStep st cur).x, (dropStep st cur).P)).2⟩ cur S
    (by
      show (slipStep _ _ _ _ _).1.length = (dropStep st cur).head + (dropStep st cur).sats.length
      rw [hfst]
      show (dropStep st cur).x.length = _
      rw [dropStep_x_length, dropStep_sats_length]
      rfl)
    (by
      show (slipStep _ _ _ _ _).2.length = (dropStep st cur).head + (dropStep st cur).sats.length
      rw [hsnd]
      show (dropStep st cur).P.length = _
      rw [dropStep_P_length, dropStep_sats_length]
      rfl)
    hst1 hcur

theorem reconcile_absent_not_tracked (cfg : AmbConfig) (st : PppState)
    (cur : List ℕ) (slip : ℕ → Bool) (S : ℕ) (h : S ∉ cur) :
    S ∉ (reconcile cfg st cur slip).sats := by
  intro hc
  have hc2 : S ∈ (dropStep st cur).sats ++
      newSats ⟨(dropStep st cur).head, (dropStep st cur).sats,
        (slipStep (dropStep st cur).head cfg.resetVar (dropStep st cur).sats slip
          ((dropStep st cur).x, (dropStep st cur).P)).1,
        (slipStep (dropStep st cur).head cfg.resetVar (dropStep st cur).sats slip
          ((dropStep st cur).x, (dropStep st cur).P)).2⟩ cur := hc
  rcases List.mem_append.mp hc2 with h1 | h2
  · exact h (dropStep_sats_mem st cur S h1).2
  · exact h (List.mem_filter.mp h2).1

theorem foldl_reconcile_absent (cfg : AmbConfig) (S : ℕ) :
    ∀ (gaps : List (List ℕ × (ℕ → Bool))) (st : PppState), gaps ≠ [] →
      (∀ g ∈ gaps, S ∉ g.1) →
      S ∉ (gaps.foldl (fun s g => reconcile cfg s g.1 g.2) st).sats := by
  intro gaps
  induction gaps with
  | nil => intro st h _; exact absurd rfl h
  | cons g rest ih =>
    intro st _ hall
    rw [List.foldl_cons]
    cases rest with
    | nil =>
      exact reconcile_absent_not_tracked cfg st g.1 g.2 S (hall g (by simp))
    | cons g2 r2 =>
      exact ih (reconcile cfg st g.1 g.2) (by simp)
        (fun g2 hg2 => hall g2 (List.mem_cons_of_mem g hg2))

/-- C5: a satellite that was tracked, then absent for one or more epochs,
then observed again receives on reappearance a brand-new ambiguity entry:
value 0 and the configured initial (large prior) variance, with nothing
carried over from the pre-gap estimate. -/
theorem reappearance_resets_ambiguity (cfg : AmbConfig) (st : PppState)
    (S : ℕ) (gaps : List (List ℕ × (ℕ → Bool))) (cur : List ℕ)
    (slip : ℕ → Bool) (hS0 : S ∈ st.sats) (hne : gaps ≠ [])
    (hgaps : ∀ g ∈ gaps, S ∉ g.1) (hcur : S ∈ cur) :
    ambVar (reconcile cfg
      (gaps.foldl (fun s g => reconcile cfg s g.1 g.2) st) cur slip) S =
        cfg.initVar ∧
    ambVal (reconcile cfg
      (gaps.foldl (fun s g => reconcile cfg s g.1 g.2) st) cur slip) S = 0 := by
  have hgone := foldl_reconcile_absent cfg S gaps st hne hgaps
  exact reconcile_fresh cfg _ cur slip S hgone hcur

/-- Witness for C5: satellite 42, tracked in a two-state filter, missing for
one epoch, reappears: its ambiguity comes back with the configured initial
variance 7 and value 0. -/
theorem reappearance_resets_ambiguity_witness :
    (42 ∈ ([42] : List ℕ)) ∧ (42 ∈ ([42] : List ℕ)) ∧
    ambVar (reconcile ⟨7, 3⟩
      (List.foldl (fun s g => reconcile ⟨7, 3⟩ s g.1 g.2)
        (⟨1, [42], [0, 0], [[1, 0], [0, 4]]⟩ : PppState)
        [(([] : List ℕ), fun _ => false)])
      [42] (fun _ => false)) 42 = 7 ∧
    ambVal (reconcile ⟨7, 3⟩
      (List.foldl (fun s g => reconcile ⟨7, 3⟩ s g.1 g.2)
        (⟨1, [42], [0, 0], [[1, 0], [0, 4]]⟩ : PppState)
        [(([] : List ℕ), fun _ => false)])
      [42] (fun _ => false)) 42 = 0 := by
  have h := reappearance_resets_ambiguity ⟨7, 3⟩
    ⟨1, [42], [0, 0], [[1, 0], [0, 4]]⟩ 42
    [(([] : List ℕ), fun _ => false)] [42] (fun _ => false)
    (by decide) (by simp) (by simp) (by decide)
  exact ⟨by decide, by decide, h.1, h.2⟩

theorem addStep_wellFormed (iv : ℚ) (st : PppState) (cur : List ℕ)
    (hwf : wellFormed st) : wellFormed (addStep iv st cur) := by
  obtain ⟨h1, h2, h3⟩ := hwf
  refine ⟨?_, ?_, ?_⟩
  · show (st.x ++ List.replicate (newSats st cur).length 0).length =
      st.head + (st.sats ++ newSats st cur).length
    rw [List.length_append, List.length_replicate, List.length_append]
    omega
  · show ((st.P.map (fun r => r ++ List.replicate (newSats st cur).length 0)) ++
      (List.range (newSats st cur).length).map _).length =
      (st.x ++ List.replicate (newSats st cur).length 0).length
    rw [List.length_append, List.length_map, List.length_map,
      List.length_range, List.length_append, List.length_replicate]
    omega
  · intro r hr
    have hr2 : r ∈ (st.P.map (fun r => r ++ List.replicate (newSats st cur).length 0)) ++
        (List.range (newSats st cur).length).map (fun j =>
          List.replicate (st.head + st.sats.length) 0 ++
            (List.replicate (newSats st cur).length 0).set j iv) := hr
    show r.length = (st.x ++ List.replicate (newSats st cur).length 0).length
    rw [List.length_append, List.length_replicate]
    rcases List.mem_append.mp hr2 with hm | hm
    · rcases List.mem_map.mp hm with ⟨r0, hr0, rfl⟩
      rw [List.length_append, List.length_replicate, h3 r0 hr0]
    · rcases List.mem_map.mp hm with ⟨j, _, rfl⟩
      rw [List.length_append, List.length_replicate, List.length_set,
        List.length_replicate]
      omega

theorem reconcile_wellFormed (cfg : AmbConfig) (st : PppState) (cur : List ℕ)
    (slip : ℕ → Bool) : wellFormed (reconcile cfg st cur slip) := by
  have hfst := slipStep_fst_length (dropStep st cur).head cfg.resetVar
    (dropStep st cur).sats slip ((dropStep st cur).x, (dropStep st cur).P)
  have hsnd := slipStep_snd_length (dropStep st cur).head cfg.resetVar
    (dropStep st cur).sats slip ((dropStep st cur).x, (dropStep st cur).P)
  have hrows := slipStep_rows (dropStep st cur).head cfg.resetVar
    (dropStep st cur).sats slip ((dropStep st cur).x, (dropStep st cur).P)
    (by
      intro r hr
      have := dropStep_P_rows st cur r hr
      rw [this, dropStep_sats_length]
      rfl)
  exact addStep_wellFormed cfg.initVar
    ⟨(dropStep st cur).head, (dropStep st cur).sats,
     (slipStep (dropStep st cur).head cfg.resetVar (dropStep st cur).sats slip
       ((dropStep st cur).x, (dropStep st cur).P)).1,
     (slipStep (dropStep st cur).head cfg.resetVar (dropStep st cur).sats slip
       ((dropStep st cur).x, (dropStep st cur).P)).2⟩ cur
    ⟨by
      show (slipStep _ _ _ _ _).1.length = (dropStep st cur).head + (dropStep st cur).sats.length
      rw [hfst]
      show (dropStep st cur).x.length = _
      rw [dropStep_x_length, dropStep_sats_length]
      rfl,
     by
      show (slipStep _ _ _ _ _).2.length = (slipStep _ _ _ _ _).1.length
      rw [hfst, hsnd]
      show (dropStep st cur).P.length = (dropStep st cur).x.length
      rw [dropStep_P_length, dropStep_x_length],
     by
      intro r hr
      have h4 := hrows r hr
      show r.length = (slipStep _ _ _ _ _).1.length
      rw [hfst, h4]
      show (dropStep st cur).head + (dropStep st cur).sats.length =
        (dropStep st cur).x.length
      rw [dropStep_x_length, dropStep_sats_length]
      rfl⟩

/-- C3: after every epoch reconciliation the state-vector length, the
covariance row and column counts all agree (the covariance stays square of
the state dimension, one entry per head unknown and tracked satellite), and
an epoch whose design matrix, weights or prefit dimensions are inconsistent
with each other or with the state vector is rejected as a fatal
DimensionMismatch with the state untouched — equivalently, any call not
rejected with DimensionMismatch passed the dimension check, so the design
matrix columns matched the state vector. -/
theorem reconcile_dimensions_and_mismatch_rejection (cfg : AmbConfig)
    (st : PppState) (cur : List ℕ) (slip : ℕ → Bool) (Φ Q : List (List ℚ))
    (wf : ℚ) (isPhase : ℕ → Bool) (st0 : PppState) (z : List ℚ)
    (H : List (List ℚ)) (w : List ℚ) :
    wellFormed (reconcile cfg st cur slip) ∧
    (checkDims st0.x.length z H w = false →
      ComputeList Φ Q wf isPhase st0 z H w =
        (some PppError.DimensionMismatch, st0)) ∧
    ((ComputeList Φ Q wf isPhase st0 z H w).1 ≠ some PppError.DimensionMismatch →
      checkDims st0.x.length z H w = true) := by
  refine ⟨reconcile_wellFormed cfg st cur slip, ?_, ?_⟩
  · intro h
    simp [ComputeList, h]
  · intro hne
    by_contra hc
    rw [Bool.not_eq_true] at hc
    exact hne (by simp [ComputeList, hc])

/-- Witness for C3: a concrete reconciled state is well formed, and a
concrete Compute call whose design matrix has one column against an empty
state vector is rejected as DimensionMismatch with the state unchanged. -/
theorem reconcile_dimensions_witness :
    wellFormed (reconcile ⟨7, 3⟩ ⟨1, [5], [0, 0], [[1, 0], [0, 2]]⟩ [5]
      (fun _ => false)) ∧
    checkDims (⟨0, [], [], []⟩ : PppState).x.length [0] [[1]] [0] = false ∧
    ComputeList [] [] 1 (fun _ => false) ⟨0, [], [], []⟩ [0] [[1]] [0] =
      (some PppError.DimensionMismatch, ⟨0, [], [], []⟩) := by
  have h := reconcile_dimensions_and_mismatch_rejection ⟨7, 3⟩
    ⟨1, [5], [0, 0], [[1, 0], [0, 2]]⟩ [5] (fun _ => false) [] [] 1
    (fun _ => false) ⟨0, [], [], []⟩ [0] [[1]] [0]
  exact ⟨h.1, by decide, h.2.1 (by decide)⟩

/-- Counterexample for C7: on a concrete solver with a nonempty convergence
window and a raised converged flag, Reset (with a 6x1 state and a 6x6
covariance as the header prescribes) neither clears the window nor lowers
the flag, contradicting the claim. -/
theorem Reset_does_not_clear_convergence_counterexample :
    ¬ ((Reset demoSolver (List.replicate 6 0)
          (List.replicate 6 (List.replicate 6 0))).convergBuffer = [] ∧
       (Reset demoSolver (List.replicate 6 0)
          (List.replicate 6 (List.replicate 6 0))).converged = false) := by
  decide

/-- C7 amended: Reset installs the new state vector and error covariance in
the underlying Kalman filter and leaves every other member — in particular
the convergence window and the converged flag — unchanged. -/
theorem Reset_installs_kalman_state_only (s : Solver) (v : List ℚ)
    (M : List (List ℚ)) :
    (Reset s v M).st.x = v ∧ (Reset s v M).st.P = M ∧
    (Reset s v M).st.head = s.st.head ∧ (Reset s v M).st.sats = s.st.sats ∧
    (Reset s v M).convergBuffer = s.convergBuffer ∧
    (Reset s v M).converged = s.converged ∧
    (Reset s v M).firstTime = s.firstTime := by
  exact ⟨rfl, rfl, rfl, rfl, rfl, rfl, rfl⟩

/-- C9: two solvers that differ only in the identification index assigned by
setIndex from the module-level classIndex counter produce identical epoch
results — same status, same numerical state, same convergence outcome; the
index only shows through getIndex. -/
theorem setIndex_does_not_influence_estimation (s : Solver) (c : ℤ)
    (Φ Q : List (List ℚ)) (cfg : AmbConfig) (isPhase : ℕ → Bool)
    (cur : List ℕ) (slip : ℕ → Bool) (z : List ℚ) (H : List (List ℚ))
    (w : List ℚ) (pass : Bool) :
    getIndex ((setIndex c s).1) = c ∧
    (ProcessSolver Φ Q cfg isPhase ((setIndex c s).1) cur slip z H w pass).1 =
      (ProcessSolver Φ Q cfg isPhase s cur slip z H w pass).1 ∧
    (ProcessSolver Φ Q cfg isPhase ((setIndex c s).1) cur slip z H w pass).2.st =
      (ProcessSolver Φ Q cfg isPhase s cur slip z H w pass).2.st ∧
    (ProcessSolver Φ Q cfg isPhase ((setIndex c s).1) cur slip z H w pass).2.converged =
      (ProcessSolver Φ Q cfg isPhase s cur slip z H w pass).2.converged ∧
    (ProcessSolver Φ Q cfg isPhase ((setIndex c s).1) cur slip z H w pass).2.index = c := by
  exact ⟨rfl, rfl, rfl, rfl, rfl⟩

/-- C10: setWeightFactor stores the square of its argument in the
weightFactor member, getWeightFactor returns the square root of that member,
so the two are a round trip on nonnegative factors, and the documented
default member value 10000 reads back as 100. -/
theorem weightFactor_roundtrip (s : Solver) (f : ℚ) (hf : 0 ≤ f) :
    getWeightFactor (setWeightFactor s f) = f ∧
    (setWeightFactor s f).weightFactor = f * f ∧
    getWeightFactor { s with weightFactor := (10000 : ℚ) } = 100 := by
  refine ⟨?_, rfl, ?_⟩
  · show Rat.sqrt (f * f) = f
    rw [Rat.sqrt_eq, abs_of_nonneg hf]
  · show Rat.sqrt (10000 : ℚ) = 100
    have h : (10000 : ℚ) = 100 * 100 := by norm_num
    rw [h, Rat.sqrt_eq]
    norm_num

/-- Witness for C10: the round trip at the concrete factor 3. -/
theorem weightFactor_roundtrip_witness :
    (0 : ℚ) ≤ 3 ∧ getWeightFactor (setWeightFactor demoSolver 3) = 3 := by
  exact ⟨by norm_num, (weightFactor_roundtrip demoSolver 3 (by norm_num)).1⟩

/-- C8: querying the converged flag on a solver on which no epoch has been
processed is an invalid request, and after any processed epoch getConverged
returns the current converged flag. -/
theorem getConverged_lifecycle (s : Solver) (Φ Q : List (List ℚ))
    (cfg : AmbConfig) (isPhase : ℕ → Bool) (cur : List ℕ) (slip : ℕ → Bool)
    (z : List ℚ) (H : List (List ℚ)) (w : List ℚ) (pass : Bool) :
    (s.firstTime = true → getConverged s = Except.error PppError.InvalidRequest) ∧
    getConverged (ProcessSolver Φ Q cfg isPhase s cur slip z H w pass).2 =
      Except.ok (ProcessSolver Φ Q cfg isPhase s cur slip z H w pass).2.converged := by
  constructor
  · intro h
    simp [getConverged, h]
  · simp [getConverged, ProcessSolver]

/-- Witness for C8: the fresh solver has processed no epoch, so getConverged
fails on it with InvalidRequest; after one processed epoch the query returns
the converged flag. -/
theorem getConverged_lifecycle_witness :
    freshSolver.firstTime = true ∧
    getConverged freshSolver = Except.error PppError.InvalidRequest ∧
    getConverged (ProcessSolver [] [] ⟨1, 1⟩ (fun _ => false) freshSolver []
        (fun _ => false) [] [] [] true).2 =
      Except.ok ((ProcessSolver [] [] ⟨1, 1⟩ (fun _ => false) freshSolver []
        (fun _ => false) [] [] [] true).2).converged := by
  have h := getConverged_lifecycle freshSolver [] [] ⟨1, 1⟩ (fun _ => false) []
    (fun _ => false) [] [] [] true
  exact ⟨rfl, h.1 rfl, h.2⟩

end gpstk
